import Mathlib

/-!
Verification of `package_llvm.py` (ycm-core/llvm).

Strings from the Python source are modelled as `List Char` where character-level
parsing matters (version strings, regex matching on tool output), and as `String`
for path/URL bookkeeping.  Machine state touched by the script (current working
directory, filesystem entries, HTTP calls) is modelled by explicit state passing;
`sys.exit` / exceptions are modelled with explicit result types.
-/

/-! ### Character-list utilities -/

/-- Match a literal prefix; on success return the remaining characters.
Used to embed the fixed-text parts of the script's regular expressions. -/
def matchLit : List Char → List Char → Option (List Char)
  | [], rest => some rest
  | _ :: _, [] => none
  | p :: ps, c :: cs => if c = p then matchLit ps cs else none

/-- Accumulating decimal parser: models `int()` applied to a string of decimal
digits (the only shape of input the script feeds it). -/
def parseNatAux (acc : Nat) : List Char → Option Nat
  | [] => some acc
  | c :: cs =>
      if c.isDigit then parseNatAux (acc * 10 + (c.toNat - 48)) cs else none

/-- Model of `int(s)` on a non-empty all-digit string; `none` models `ValueError`. -/
def parseNat : List Char → Option Nat
  | [] => none
  | c :: cs => parseNatAux 0 (c :: cs)

/-- Fuelled decimal renderer (big-endian digits), fuel `> n` suffices.
Models Python's `str()` on a non-negative integer. -/
def renderNatAux : Nat → Nat → List Char
  | 0, _ => []
  | fuel + 1, n =>
      if n < 10 then [Nat.digitChar n]
      else renderNatAux fuel (n / 10) ++ [Nat.digitChar (n % 10)]

/-- Model of `str(n)` for a natural number `n`. -/
def renderNat (n : Nat) : List Char := renderNatAux (n + 1) n

/-- Model of `s.split('.')`: split a character list at every `'.'` occurrence.
Always returns at least one (possibly empty) part, like Python's `str.split`. -/
def splitDot : List Char → List (List Char)
  | [] => [[]]
  | c :: cs =>
      if c = '.' then [] :: splitDot cs
      else
        match splitDot cs with
        | [] => [[c]]
        | p :: ps => (c :: p) :: ps

/-! ### The `Version` class (`package_llvm.py` lines 86-113) -/

/-- Model of `Version`: ordered triple parsed from a dot-separated string
(`package_llvm.py` lines 89-93). -/
structure Version where
  major : Nat
  minor : Nat
  patch : Nat
  deriving DecidableEq, Repr

/-- Lines 91-93 of `Version.__init__`, applied to the result of
`version.split('.')`: `int(parts[0])`; `int(parts[1])` if present else `0`;
`int(parts[2])` if present else `0`; later parts are ignored.
`none` models the `ValueError` raised by `int()` on non-numeric input.
The `[]` case is unreachable: `split` always yields at least one part. -/
def Version.ofParts : List (List Char) → Option Version
  | [] => none
  | [p0] => (parseNat p0).map (fun M => ⟨M, 0, 0⟩)
  | [p0, p1] =>
      match parseNat p0, parseNat p1 with
      | some M, some m => some ⟨M, m, 0⟩
      | _, _ => none
  | p0 :: p1 :: p2 :: _ =>
      match parseNat p0, parseNat p1, parseNat p2 with
      | some M, some m, some p => some ⟨M, m, p⟩
      | _, _, _ => none

/-- Model of `Version(version)`: split on `'.'` and read up to three numeric components. -/
def Version.parse (s : List Char) : Option Version :=
  Version.ofParts (splitDot s)

/-- Model of `Version.__lt__` (lines 103-107): Python tuple comparison
`(major, minor, patch) < (other.major, other.minor, other.patch)`,
i.e. lexicographic over the numeric components. -/
def Version.ltb (a b : Version) : Bool :=
  decide (a.major < b.major) ||
    (a.major == b.major &&
      (decide (a.minor < b.minor) ||
        (a.minor == b.minor && decide (a.patch < b.patch))))

/-- Model of `Version.__repr__` (lines 110-113): `'.'.join((str(major), str(minor), str(patch)))`. -/
def Version.reprChars (v : Version) : List Char :=
  renderNat v.major ++ ('.' :: (renderNat v.minor ++ ('.' :: renderNat v.patch)))

/-! ### Command-line arguments and release-spec derivation
(`package_llvm.py` lines 21-28 and 151-169) -/

/-- The fields of the parsed command line that the modelled functions consult
(`ParseArguments`, lines 393-436).  Credential and organization fields are
omitted: they play no role in the modelled behaviour. -/
structure Args where
  version : String
  release_candidate : Option Nat
  no_upload : Bool
  base_dir : String
  target_architecture : String
  deriving DecidableEq, Repr

/-- Python truthiness of `args.release_candidate`: the source tests
`if args.release_candidate:`, which is false for both `None` and `0`. -/
def rcTruthy (args : Args) : Bool :=
  match args.release_candidate with
  | some n => n != 0
  | none => false

/-- Model of `LLVM_RELEASE_URL` (lines 21-23) after `.format( version = ... )`. -/
def LLVM_RELEASE_URL (version : String) : String :=
  "https://github.com/llvm/llvm-project/releases/download/llvmorg-" ++ version

/-- Model of `LLVM_PRERELEASE_URL` (lines 24-26) after `.format`. -/
def LLVM_PRERELEASE_URL (version : String) (release_candidate : Nat) : String :=
  "https://github.com/llvm/llvm-project/releases/download/llvmorg-" ++
    version ++ "-rc" ++ Nat.repr release_candidate

/-- Model of `LLVM_SOURCE` (line 27) after `.format`. -/
def LLVM_SOURCE (version : String) : String :=
  "llvm-project-" ++ version ++ ".src"

/-- Model of `BUNDLE_NAME` (line 28) after `.format`. -/
def BUNDLE_NAME (version target : String) : String :=
  "clang+llvm-" ++ version ++ "-" ++ target

/-- Model of `GetLlvmBaseUrl` (lines 151-157). -/
def GetLlvmBaseUrl (args : Args) : String :=
  if rcTruthy args then
    LLVM_PRERELEASE_URL args.version (args.release_candidate.getD 0)
  else
    LLVM_RELEASE_URL args.version

/-- Model of `GetLlvmVersion` (lines 160-163): the source-tree version token,
`version + 'rc' + str(rc)` when a release candidate is given. -/
def GetLlvmVersion (args : Args) : String :=
  if rcTruthy args then
    args.version ++ "rc" ++ Nat.repr (args.release_candidate.getD 0)
  else
    args.version

/-- Model of `GetBundleVersion` (lines 166-169): the publication tag,
`version + '-rc' + str(rc)` when a release candidate is given. -/
def GetBundleVersion (args : Args) : String :=
  if rcTruthy args then
    args.version ++ "-rc" ++ Nat.repr (args.release_candidate.getD 0)
  else
    args.version

/-! ### `Retries` (`package_llvm.py` lines 34 and 116-130) -/

/-- Outcome of one invocation of the wrapped `function( *args )`: normal
return, `SystemExit` (the deliberate abort signal raised by `sys.exit`), or
any other exception. -/
inductive PyOutcome where
  | ok
  | sysExit (msg : String)
  | otherExc (msg : String)
  deriving DecidableEq, Repr

/-- Model of `RETRY_INTERVAL` (line 34), in seconds. -/
def RETRY_INTERVAL : Nat := 10

/-- Externally observable events of `Retries`: the `i`-th invocation of
`function` (numbered from 0) and `time.sleep` of a given number of seconds. -/
inductive RetryEvent where
  | attempt (i : Nat)
  | sleep (seconds : Nat)
  deriving DecidableEq, Repr

/-- How `Retries` terminates: `return True`; the fatal
`sys.exit('Number of retries exceeded ...')`; or an exception other than
`SystemExit` escaping uncaught. -/
inductive RetryResult where
  | success
  | aborted
  | raised (msg : String)
  deriving DecidableEq, Repr

/-- The `while True` loop of `Retries` (lines 119-130).  `f i` gives the
outcome of the `i`-th invocation of `function( *args )`; `nb` is
`nb_retries`.  `fuel` bounds the remaining iterations; any
`fuel ≥ max_retries + 1 - nb` makes the base case unreachable, because
`nb_retries` strictly increases on every looping iteration and the loop
aborts once `nb_retries > max_retries`. -/
def RetriesGo (f : Nat → PyOutcome) (max_retries : Nat) :
    Nat → Nat → Nat → List RetryEvent × RetryResult
  | 0, _, _ => ([], .aborted)
  | fuel + 1, i, nb =>
      match f i with
      | .ok => ([.attempt i], .success)
      | .otherExc m => ([.attempt i], .raised m)
      | .sysExit _ =>
          if nb + 1 > max_retries then ([.attempt i], .aborted)
          else
            let rest := RetriesGo f max_retries fuel (i + 1) (nb + 1)
            (.attempt i :: .sleep RETRY_INTERVAL :: rest.1, rest.2)

/-- Model of `Retries( function, *args )` (lines 116-130): `max_retries = 3`,
`nb_retries = 0`; fuel `4 = max_retries + 1` covers every reachable
iteration of the `while True` loop. -/
def Retries (f : Nat → PyOutcome) : List RetryEvent × RetryResult :=
  RetriesGo f 3 4 0 0

/-! ### The pipeline: `Main` (lines 439-488) and `DownloadSource` (lines 172-179) -/

/-- Model of `os.path.join(a, b)` for the joins `Main` performs (a directory joined
with a relative component).  `args.base_dir` is assumed absolute, so
`os.path.abspath` is the identity. -/
def joinPath (a b : String) : String := a ++ "/" ++ b

/-- One row of `ENV_DATA` (lines 42-72). -/
structure EnvEntry where
  host : String
  target : String
  archive : String
  deriving DecidableEq, Repr

/-- Model of `ENV_DATA` (lines 42-72); `none` models the `KeyError` an unsupported
(platform, architecture) pair raises. -/
def ENV_DATA (system arch : String) : Option EnvEntry :=
  if system = "Linux" then
    if arch = "x86_64" then
      some ⟨"x86_64-unknown-linux-gnu", "x86_64-unknown-linux-gnu",
        "x86_64-unknown-linux-gnu"⟩
    else if arch = "arm" then
      some ⟨"x86_64-unknown-linux-gnu", "arm-linux-gnueabihf",
        "armv7a-linux-gnueabihf"⟩
    else if arch = "aarch64" then
      some ⟨"x86_64-unknown-linux-gnu", "aarch64-linux-gnu", "aarch64-linux-gnu"⟩
    else none
  else if system = "Darwin" then
    if arch = "x86_64" then
      some ⟨"x86_64-apple-darwin", "x86_64-apple-darwin", "x86_64-apple-darwin"⟩
    else if arch = "arm64" then
      some ⟨"x86_64-apple-darwin", "arm64-apple-darwin", "arm64-apple-darwin"⟩
    else none
  else none

/-- The pieces of external stage work the pipeline can perform. -/
inductive StageAct where
  | download
  | extract
  | buildTableGen
  | buildLlvm
  | checkLlvm
  | bundle
  | upload
  deriving DecidableEq, Repr

/-- Model of `DownloadSource(url, source)` (lines 172-179), run with the working
directory set to `dir` (`Main` wraps the call in `WorkingDirectory(base_dir)`):
download unless the archive file exists, extract unless the source directory
exists.  `fs` is the list of filesystem paths existing at entry. -/
def DownloadSourceActs (fs : List String) (dir source : String) : List StageAct :=
  (if joinPath dir (source ++ ".tar.xz") ∈ fs then [] else [.download]) ++
    (if joinPath dir source ∈ fs then [] else [.extract])

/-- The stage work `Main` (lines 439-488) performs, given the list `fs` of
paths existing at entry; `system` is `platform.system()`.  `os.mkdir` calls
are internal bookkeeping, not stage work, and are not recorded.  An
unsupported (system, architecture) pair raises `KeyError` before any stage
work (empty plan).  Every gating check is evaluated against the entry state:
this is faithful because no stage creates a path that a later gating check
reads (the download stage creates only the source archive, which no later
check consults). -/
def plannedActs (system : String) (args : Args) (fs : List String) :
    List StageAct :=
  match ENV_DATA system args.target_architecture with
  | none => []
  | some env =>
      let base_dir := joinPath args.base_dir env.target
      let llvm_source := LLVM_SOURCE (GetLlvmVersion args)
      (if joinPath base_dir llvm_source ∈ fs then []
       else DownloadSourceActs fs base_dir llvm_source) ++
        [.buildTableGen, .buildLlvm] ++
        (if system = "Linux" then [.checkLlvm] else []) ++
        (if joinPath base_dir
              (BUNDLE_NAME (GetBundleVersion args) env.archive ++ ".tar.xz") ∈ fs
         then [] else [.bundle]) ++
        (if args.no_upload then [] else [.upload])

/-- Execute the planned stage invocations in order.  `Main` installs no
handler and no retry around any stage, so the first raising stage (whether
`SystemExit` or any other exception) terminates the run.  Returns the
invocation trace and whether the run completed. -/
def runActs (behave : StageAct → PyOutcome) : List StageAct → List StageAct × Bool
  | [] => ([], true)
  | a :: rest =>
      match behave a with
      | .ok =>
          let r := runActs behave rest
          (a :: r.1, r.2)
      | _ => ([a], false)

/-- Model of `Main` (lines 439-488): gate the stages on the entry filesystem `fs`,
then run them in order with per-stage outcomes given by `behave`. -/
def MainRun (system : String) (args : Args) (fs : List String)
    (behave : StageAct → PyOutcome) : List StageAct × Bool :=
  runActs behave (plannedActs system args fs)

/-- Sample arguments: version 10.0.0, no release candidate, no upload,
base directory `/b`, native x86_64 build. -/
def sampleArgs : Args := ⟨"10.0.0", none, true, "/b", "x86_64"⟩

/-- Entry filesystem in which the three build-stage output directories
already exist. -/
def sampleFsBuilt : List String :=
  ["/b/x86_64-unknown-linux-gnu/tblgen_build",
   "/b/x86_64-unknown-linux-gnu/llvm_build",
   "/b/x86_64-unknown-linux-gnu/llvm_install"]

/-- A behaviour in which the tblgen build stage always raises `SystemExit`
and every other stage succeeds. -/
def sampleTblgenFails : StageAct → PyOutcome
  | .buildTableGen => .sysExit "cmake failed"
  | _ => .ok

/-- Entry filesystem in which the extracted source directory and the bundle
archive already exist. -/
def sampleFsDone : List String :=
  ["/b/x86_64-unknown-linux-gnu/llvm-project-10.0.0.src",
   "/b/x86_64-unknown-linux-gnu/clang+llvm-10.0.0-x86_64-unknown-linux-gnu.tar.xz"]

/-! ### `WorkingDirectory` (`package_llvm.py` lines 76-83) -/

/-- Process state visible to `WorkingDirectory`: the current working
directory plus the rest of the mutable world (modelled abstractly as the
list of filesystem paths), which the managed block may change and which the
context manager must not touch. -/
structure ProcState where
  cwd : String
  world : List String
  deriving DecidableEq, Repr

/-- Result of the managed block: normal completion with a value, or an
exception. -/
inductive BlockResult (α : Type) where
  | ok (a : α)
  | exc (msg : String)
  deriving DecidableEq, Repr

/-- Model of `WorkingDirectory(cwd)` (lines 76-83): save `os.getcwd()`, `os.chdir(cwd)`,
run the block, and in the `finally` clause `os.chdir(old_cwd)` — so the
restore happens whether the block returns normally or raises, and any
exception keeps propagating. -/
def WorkingDirectory {α : Type} (cwd : String)
    (body : ProcState → ProcState × BlockResult α) (s : ProcState) :
    ProcState × BlockResult α :=
  let old_cwd := s.cwd
  let s1 : ProcState := { s with cwd := cwd }
  let r := body s1
  ({ r.1 with cwd := old_cwd }, r.2)

/-! ### `SHARED_LIBRARY_REGEX` and `BundleLlvm`
(`package_llvm.py` lines 35 and 297-312) -/

/-- Acceptance of the tail pattern `(.\d+)*$` of `SHARED_LIBRARY_REGEX`: zero
or more groups, each an arbitrary character followed by one or more digits.
A backtracking engine accepts exactly when some decomposition into such
groups exists; each group consumes its leading character and then some
non-empty prefix of the following run of digits.  The fuel only bounds the
recursion depth: every group consumes at least one character, so
`fuel ≥ length` never reaches the `0` case on a non-empty list. -/
def soSuffixGo : Nat → List Char → Bool
  | _, [] => true
  | 0, _ :: _ => false
  | fuel + 1, _ :: rest =>
      (List.range (rest.takeWhile Char.isDigit).length).any
        (fun k => soSuffixGo fuel (rest.drop (k + 1)))

/-- Does `s` match `(.\d+)*$`? -/
def soSuffix (s : List Char) : Bool := soSuffixGo s.length s

/-- Model of `SHARED_LIBRARY_REGEX.match( filename )` (line 35): the pattern
`.*\.so(.\d+)*$` accepts exactly the names containing an occurrence of the
literal `".so"` whose remaining tail matches `(.\d+)*$`. -/
def sharedLibMatch : List Char → Bool
  | [] => false
  | '.' :: 's' :: 'o' :: suffix =>
      soSuffix suffix || sharedLibMatch ('s' :: 'o' :: suffix)
  | _ :: rest => sharedLibMatch rest

/-- One file yielded by `os.walk( install_dir )`: its path relative to
`install_dir`, its basename (the `filename` the regex is matched against)
and its permission bits (`st_mode`). -/
structure InstFile where
  relpath : List Char
  filename : List Char
  mode : Nat
  deriving DecidableEq, Repr

/-- Lines 305-309 of `BundleLlvm`: for a filename matching the
shared-library pattern, `mode |= ( mode & 0o444 ) >> 2` copies each set read
bit onto the corresponding execute bit; any other file keeps its mode. -/
def normalizeMode (filename : List Char) (mode : Nat) : Nat :=
  if sharedLibMatch filename then mode ||| ((mode &&& 0o444) >>> 2) else mode

/-- Model of `BundleLlvm` (lines 297-312): every walked file is added to the archive
under `bundle_name/<relpath>` with the mode it has after the normalization
(`os.chmod`) step. -/
def BundleLlvm (bundle_name : List Char) (files : List InstFile) :
    List (List Char × Nat) :=
  files.map (fun f =>
    (bundle_name ++ ('/' :: f.relpath), normalizeMode f.filename f.mode))

/-- Sample shared library: readable but not executable (mode `0o444`). -/
def sampleLibFile : InstFile :=
  ⟨"lib/libclang.so".toList, "libclang.so".toList, 0o444⟩

/-- Sample non-matching file. -/
def sampleOtherFile : InstFile :=
  ⟨"bin/clangd".toList, "clangd".toList, 0o644⟩

/-- Sample walked install tree. -/
def sampleInstFiles : List InstFile := [sampleLibFile, sampleOtherFile]

/-! ### `objdump` output parsing: `CheckDependencies` / `CheckLlvm`
(`package_llvm.py` lines 37-40 and 262-294) -/

/-- Model of `OBJDUMP_NEEDED_REGEX.search( line )` (lines 37-38): anchored pattern
`^  NEEDED` followed by 15 spaces and the captured dependency name (the rest
of the line). -/
def OBJDUMP_NEEDED_match (line : List Char) : Option (List Char) :=
  matchLit "  NEEDED               ".toList line

/-- Split at the last underscore: the greedy `(?P<library>.*)_(?P<version>.*)`
gives the first group everything up to the final `'_'`. -/
def splitLastUnd : List Char → Option (List Char × List Char)
  | [] => none
  | c :: cs =>
      match splitLastUnd cs with
      | some (l, v) => some (c :: l, v)
      | none => if c = '_' then some ([], cs) else none

/-- The character class `[0-9a-f]`. -/
def isHexLower (c : Char) : Bool := c.isDigit || ('a' ≤ c && c ≤ 'f')

/-- Model of `OBJDUMP_VERSION_REGEX.search( line )` (lines 39-40): anchored pattern
`^    0x[0-9a-f]+ 0x00 \d+ (?P<library>.*)_(?P<version>.*)$`.  Maximal munch
for `[0-9a-f]+` and `\d+` is equivalent to the backtracking search because
each is followed by a literal space, which belongs to neither class. -/
def OBJDUMP_VERSION_match (line : List Char) :
    Option (List Char × List Char) :=
  match matchLit "    0x".toList line with
  | none => none
  | some r1 =>
      if r1.takeWhile isHexLower = [] then none
      else
        match matchLit " 0x00 ".toList (r1.dropWhile isHexLower) with
        | none => none
        | some r3 =>
            if r3.takeWhile Char.isDigit = [] then none
            else
              match matchLit " ".toList (r3.dropWhile Char.isDigit) with
              | none => none
              | some r5 => splitLastUnd r5

/-- The `versions` argument threaded through `CheckDependencies`: a
`defaultdict( list )` preserving insertion order, modelled as an association
list. -/
abbrev VersionsMap := List (List Char × List Version)

/-- Model of `versions[ library ].append( version )` on the `defaultdict( list )`. -/
def addVersion (lib : List Char) (v : Version) : VersionsMap → VersionsMap
  | [] => [(lib, [v])]
  | (l, vs) :: rest =>
      if l = lib then (l, vs ++ [v]) :: rest
      else (l, vs) :: addVersion lib v rest

/-- The line loop of `CheckDependencies` (lines 268-277): collect `NEEDED`
dependencies in order and append every matched symbol version to its
library's list.  `none` models the `ValueError` raised by `int()` on a
non-numeric matched version string. -/
def CheckDependenciesGo :
    List (List Char) → List (List Char) → VersionsMap →
      Option (List (List Char) × VersionsMap)
  | [], deps, vs => some (deps, vs)
  | line :: rest, deps, vs =>
      let deps' :=
        match OBJDUMP_NEEDED_match line with
        | some d => deps ++ [d]
        | none => deps
      match OBJDUMP_VERSION_match line with
      | none => CheckDependenciesGo rest deps' vs
      | some (lib, verStr) =>
          match Version.parse verStr with
          | none => none
          | some v => CheckDependenciesGo rest deps' (addVersion lib v vs)

/-- Model of `CheckDependencies( name, path, versions )` (lines 262-281), applied to
the lines of the `objdump -p` output for the inspected binary: returns the
printed dependency list and the updated shared versions map. -/
def CheckDependencies (output : List (List Char)) (versions : VersionsMap) :
    Option (List (List Char) × VersionsMap) :=
  CheckDependenciesGo output [] versions

/-- Python's `max` on a cursor and remaining items: keep the current
maximum, replacing it whenever a later item compares greater. -/
def pyMaxGo (cur : Version) : List Version → Version
  | [] => cur
  | v :: rest => pyMaxGo (if Version.ltb cur v then v else cur) rest

/-- Model of `max( values )`; `none` models the `ValueError` on an empty list
(unreachable here: every map entry is created non-empty). -/
def pyMax : List Version → Option Version
  | [] => none
  | v :: rest => some (pyMaxGo v rest)

/-- The report printed by lines 292-294: one `(library, max( values ))` pair
per map entry, in map order. -/
def reportOf : VersionsMap → Option (List (List Char × Version))
  | [] => some []
  | (l, vals) :: rest =>
      match pyMax vals, reportOf rest with
      | some m, some r => some ((l, m) :: r)
      | _, _ => none

/-- Model of `CheckLlvm( install_dir )` (lines 284-294): inspect `libclang.so` then
`clangd` with one shared `versions` map, and report the maximum version per
library. -/
def CheckLlvm (libclangOut clangdOut : List (List Char)) :
    Option (List (List Char × Version)) :=
  match CheckDependencies libclangOut [] with
  | none => none
  | some (_, vs1) =>
      match CheckDependencies clangdOut vs1 with
      | none => none
      | some (_, vs2) => reportOf vs2

/-- Specification-side collector: the versions the two regexes attribute to
library `lib` over a list of output lines (used to state C7 against). -/
def lineVersionsFor (lib : List Char) (lines : List (List Char)) :
    List Version :=
  lines.filterMap (fun line =>
    match OBJDUMP_VERSION_match line with
    | some (l, s) => if l = lib then Version.parse s else none
    | none => none)

/-- Association-list lookup with the `defaultdict` default. -/
def lookupVersions (lib : List Char) : VersionsMap → List Version
  | [] => []
  | (l, vs) :: rest => if l = lib then vs else lookupVersions lib rest

/-! ### C7: the reported versions are maxima -/

/-- Sample `objdump -p` output for `libclang.so`: one `NEEDED` line and two
versioned-symbol lines for `GLIBC`. -/
def sampleLibclangOut : List (List Char) :=
  ["  NEEDED               libc.so.6".toList,
   "    0x0d696910 0x00 05 GLIBC_2.2.5".toList,
   "    0x09691a75 0x00 03 GLIBC_2.3".toList]

/-- Sample `objdump -p` output for `clangd`: one `NEEDED` line and a third
`GLIBC` versioned-symbol line. -/
def sampleClangdOut : List (List Char) :=
  ["  NEEDED               libm.so.6".toList,
   "    0x0d696917 0x00 02 GLIBC_2.17".toList]

/-! ### `UploadLlvm` (`package_llvm.py` lines 315-390) -/

/-- A release asset as returned by the hosting API. -/
structure Asset where
  name : String
  asset_id : Nat
  deriving DecidableEq, Repr

/-- A release as returned by the list-releases call. -/
structure Release where
  tag_name : String
  upload_url : String
  assets : List Asset
  deriving DecidableEq, Repr

/-- The mocked release-hosting API: the status codes and bodies it answers
with.  Response bodies irrelevant to control flow (JSON error messages) are
elided. -/
structure GhApi where
  listStatus : Nat
  releases : List Release
  deleteStatus : Nat
  createStatus : Nat
  createUploadUrl : String
  uploadStatus : Nat
  deriving DecidableEq, Repr

/-- The API calls `UploadLlvm` can issue, in order of emission. -/
inductive ApiCall where
  | listReleases
  | deleteAsset (asset_id : Nat)
  | createRelease
  | uploadAsset
  deriving DecidableEq, Repr

/-- Lines 335-352: scan a release's assets; on the first one named
`bundle_name`, issue the delete call — `sys.exit` unless it answers 204 —
and `break`. -/
def deleteMatchingAsset (bundle_name : String) (api : GhApi) :
    List Asset → List ApiCall × Except String Unit
  | [] => ([], .ok ())
  | a :: rest =>
      if a.name ≠ bundle_name then deleteMatchingAsset bundle_name api rest
      else
        ([.deleteAsset a.asset_id],
         if api.deleteStatus ≠ 204 then .error "Deleting release failed"
         else .ok ())

/-- Lines 328-352: the `for release in response.json()` loop.  `u` is the
running value of the Python `upload_url` variable (`None` initially); a
release whose tag matches overwrites it with its own upload URL before its
assets are scanned. -/
def scanReleases (bundle_version bundle_name : String) (api : GhApi) :
    List Release → Option String →
      List ApiCall × Except String (Option String)
  | [], u => ([], .ok u)
  | r :: rest, u =>
      if r.tag_name ≠ bundle_version then
        scanReleases bundle_version bundle_name api rest u
      else
        match deleteMatchingAsset bundle_name api r.assets with
        | (calls, .error e) => (calls, .error e)
        | (calls, .ok _) =>
            let res := scanReleases bundle_version bundle_name api rest
              (some r.upload_url)
            (calls ++ res.1, res.2)

/-- Python truthiness of the `upload_url` variable on line 354
(`if not upload_url:`): `None` and the empty string are falsy. -/
def strTruthy : Option String → Bool
  | none => false
  | some s => s != ""

/-- Model of `UploadLlvm( args, bundle_path )` (lines 315-390): `bundle_version` is
`GetBundleVersion( args )` and `bundle_name` the basename of `bundle_path`.
Returns the sequence of API calls issued and the outcome (`error` models
`sys.exit`).  The template-suffix removal on the upload URL (line 376) is a
pure string cleanup that issues no call; the upload call itself is issued
before its status is checked. -/
def UploadLlvm (bundle_version bundle_name : String) (api : GhApi) :
    List ApiCall × Except String Unit :=
  if api.listStatus ≠ 200 then
    ([.listReleases], .error "Getting releases failed")
  else
    match scanReleases bundle_version bundle_name api api.releases none with
    | (calls, .error e) => (.listReleases :: calls, .error e)
    | (calls, .ok u) =>
        if strTruthy u then
          (.listReleases :: calls ++ [.uploadAsset],
           if api.uploadStatus ≠ 201 then .error "Uploading failed"
           else .ok ())
        else
          if api.createStatus ≠ 201 then
            (.listReleases :: calls ++ [.createRelease],
             .error "Releasing failed")
          else
            (.listReleases :: calls ++ [.createRelease, .uploadAsset],
             if api.uploadStatus ≠ 201 then .error "Uploading failed"
             else .ok ())

/-- The mocked API of the C6 scenario: one release carrying the target tag
`10.0.0` with an asset named like the bundle; all endpoints answer their
success statuses. -/
def sampleApi : GhApi :=
  { listStatus := 200,
    releases :=
      [{ tag_name := "10.0.0",
         upload_url := "https://uploads.example/releases/1/assets",
         assets :=
           [{ name := "clang+llvm-10.0.0-x86_64-unknown-linux-gnu.tar.xz",
              asset_id := 7 }] }],
    deleteStatus := 204,
    createStatus := 201,
    createUploadUrl := "https://uploads.example/releases/2/assets",
    uploadStatus := 201 }

/-! ## Theorems -/

/-! ### Decimal rendering / parsing lemmas -/

theorem digitChar_isDigit {d : Nat} (h : d < 10) : (Nat.digitChar d).isDigit = true := by
  interval_cases d <;> decide

theorem digitChar_toNat {d : Nat} (h : d < 10) : (Nat.digitChar d).toNat - 48 = d := by
  interval_cases d <;> decide

theorem digitChar_ne_dot {d : Nat} (h : d < 10) : Nat.digitChar d ≠ '.' := by
  interval_cases d <;> decide

theorem renderNatAux_all_digits :
    ∀ fuel n, n < fuel → ∀ c ∈ renderNatAux fuel n, c.isDigit = true := by
  intro fuel
  induction fuel with
  | zero => intro n h; omega
  | succ fuel ih =>
      intro n _ c hc
      by_cases h10 : n < 10
      · simp only [renderNatAux, if_pos h10, List.mem_singleton] at hc
        subst hc; exact digitChar_isDigit h10
      · simp only [renderNatAux, if_neg h10, List.mem_append, List.mem_singleton] at hc
        rcases hc with hc | hc
        · exact ih (n / 10) (by omega) c hc
        · subst hc; exact digitChar_isDigit (Nat.mod_lt _ (by omega))

theorem renderNatAux_ne_nil :
    ∀ fuel n, n < fuel → renderNatAux fuel n ≠ [] := by
  intro fuel
  induction fuel with
  | zero => intro n h; omega
  | succ fuel _ =>
      intro n _
      by_cases h10 : n < 10
      · simp [renderNatAux, if_pos h10]
      · simp [renderNatAux, if_neg h10]

theorem parseNatAux_append_digits :
    ∀ (l : List Char) (acc : Nat) (rest : List Char),
      (∀ c ∈ l, c.isDigit = true) →
      parseNatAux acc (l ++ rest) =
        parseNatAux (l.foldl (fun a c => a * 10 + (c.toNat - 48)) acc) rest := by
  intro l
  induction l with
  | nil => intro acc rest _; simp
  | cons c cs ih =>
      intro acc rest hdig
      have hc : c.isDigit = true := hdig c (List.mem_cons_self c cs)
      simp only [List.cons_append, parseNatAux, if_pos hc, List.foldl_cons]
      exact ih _ rest (fun x hx => hdig x (List.mem_cons_of_mem c hx))

theorem renderNatAux_foldl :
    ∀ fuel n acc, n < fuel →
      (renderNatAux fuel n).foldl (fun a c => a * 10 + (c.toNat - 48)) acc =
        acc * 10 ^ (renderNatAux fuel n).length + n := by
  intro fuel
  induction fuel with
  | zero => intro n acc h; omega
  | succ fuel ih =>
      intro n acc _
      by_cases h10 : n < 10
      · simp only [renderNatAux, if_pos h10, List.foldl_cons, List.foldl_nil,
          List.length_singleton, pow_one]
        rw [digitChar_toNat h10]
      · have hrec := ih (n / 10) acc (by omega)
        simp only [renderNatAux, if_neg h10, List.foldl_append, List.foldl_cons,
          List.foldl_nil, List.length_append, List.length_singleton]
        rw [hrec, digitChar_toNat (Nat.mod_lt _ (by omega))]
        have : acc * 10 ^ ((renderNatAux fuel (n / 10)).length + 1) =
            acc * 10 ^ (renderNatAux fuel (n / 10)).length * 10 := by ring
        rw [this]
        omega

theorem parseNat_renderNat (n : Nat) : parseNat (renderNat n) = some n := by
  have hne : renderNat n ≠ [] := renderNatAux_ne_nil (n + 1) n (by omega)
  have hdig : ∀ c ∈ renderNat n, c.isDigit = true :=
    renderNatAux_all_digits (n + 1) n (by omega)
  obtain ⟨c, cs, hcs⟩ : ∃ c cs, renderNat n = c :: cs := by
    cases h : renderNat n with
    | nil => exact absurd h hne
    | cons c cs => exact ⟨c, cs, rfl⟩
  have h1 : parseNat (renderNat n) = parseNatAux 0 (renderNat n) := by
    rw [hcs]; rfl
  have h2 : parseNatAux 0 (renderNat n ++ []) =
      parseNatAux ((renderNat n).foldl (fun a c => a * 10 + (c.toNat - 48)) 0) [] :=
    parseNatAux_append_digits (renderNat n) 0 [] hdig
  have h3 : (renderNat n).foldl (fun a c => a * 10 + (c.toNat - 48)) 0 =
      0 * 10 ^ (renderNat n).length + n :=
    renderNatAux_foldl (n + 1) n 0 (by omega)
  rw [h1]
  have : parseNatAux 0 (renderNat n) = parseNatAux 0 (renderNat n ++ []) := by
    rw [List.append_nil]
  rw [this, h2, h3]
  simp [parseNatAux]

theorem renderNat_no_dot (n : Nat) : '.' ∉ renderNat n := by
  intro hmem
  have := renderNatAux_all_digits (n + 1) n (by omega) '.' hmem
  simp [Char.isDigit] at this

/-! ### `splitDot` lemmas -/

theorem splitDot_ne_nil : ∀ l : List Char, splitDot l ≠ [] := by
  intro l
  induction l with
  | nil => simp [splitDot]
  | cons c cs ih =>
      by_cases h : c = '.'
      · simp [splitDot, if_pos h]
      · simp only [splitDot, if_neg h]
        cases hs : splitDot cs with
        | nil => simp
        | cons p ps => simp

theorem splitDot_no_dot {l : List Char} (h : '.' ∉ l) : splitDot l = [l] := by
  induction l with
  | nil => rfl
  | cons c cs ih =>
      have hc : c ≠ '.' := fun hh => h (hh ▸ List.mem_cons_self c cs)
      have hcs : '.' ∉ cs := fun hh => h (List.mem_cons_of_mem c hh)
      simp only [splitDot, if_neg hc, ih hcs]

theorem splitDot_append_dot {l : List Char} (r : List Char) (h : '.' ∉ l) :
    splitDot (l ++ '.' :: r) = l :: splitDot r := by
  induction l with
  | nil => simp [splitDot]
  | cons c cs ih =>
      have hc : c ≠ '.' := fun hh => h (hh ▸ List.mem_cons_self c cs)
      have hcs : '.' ∉ cs := fun hh => h (List.mem_cons_of_mem c hh)
      simp only [List.cons_append, splitDot, if_neg hc]
      rw [List.append_eq, ih hcs]

/-! ### Parsing the three valid version shapes -/

theorem version_parse_one (x : Nat) :
    Version.parse (renderNat x) = some ⟨x, 0, 0⟩ := by
  unfold Version.parse
  rw [splitDot_no_dot (renderNat_no_dot x)]
  simp [Version.ofParts, parseNat_renderNat]

theorem version_parse_two (x y : Nat) :
    Version.parse (renderNat x ++ ('.' :: renderNat y)) = some ⟨x, y, 0⟩ := by
  unfold Version.parse
  rw [splitDot_append_dot (renderNat y) (renderNat_no_dot x),
    splitDot_no_dot (renderNat_no_dot y)]
  simp [Version.ofParts, parseNat_renderNat]

theorem version_parse_three (x y z : Nat) :
    Version.parse
        (renderNat x ++ ('.' :: (renderNat y ++ ('.' :: renderNat z)))) =
      some ⟨x, y, z⟩ := by
  unfold Version.parse
  rw [splitDot_append_dot _ (renderNat_no_dot x),
    splitDot_append_dot _ (renderNat_no_dot y),
    splitDot_no_dot (renderNat_no_dot z)]
  simp [Version.ofParts, parseNat_renderNat]

/-- C4: version strings of the shapes `"X"`, `"X.Y"`, `"X.Y.Z"` parse with
omitted minor/patch components filled with zero, the order on `Version` is
numeric componentwise tuple order (major dominates, then minor, then patch),
and in particular `Version("10.0.0") < Version("9.10.0")` is false. -/
theorem version_parse_fill_zero_and_numeric_order :
    (∀ x : Nat, Version.parse (renderNat x) = some ⟨x, 0, 0⟩) ∧
    (∀ x y : Nat,
      Version.parse (renderNat x ++ ('.' :: renderNat y)) = some ⟨x, y, 0⟩) ∧
    (∀ x y z : Nat,
      Version.parse
          (renderNat x ++ ('.' :: (renderNat y ++ ('.' :: renderNat z)))) =
        some ⟨x, y, z⟩) ∧
    (∀ a b : Version,
      Version.ltb a b = true ↔
        (a.major < b.major ∨ (a.major = b.major ∧
          (a.minor < b.minor ∨ (a.minor = b.minor ∧ a.patch < b.patch))))) ∧
    Version.parse "10.0.0".toList = some ⟨10, 0, 0⟩ ∧
    Version.parse "9.10.0".toList = some ⟨9, 10, 0⟩ ∧
    Version.ltb ⟨10, 0, 0⟩ ⟨9, 10, 0⟩ = false := by
  refine ⟨version_parse_one, version_parse_two, version_parse_three, ?_, ?_, ?_, ?_⟩
  · intro a b
    simp [Version.ltb, Bool.or_eq_true, Bool.and_eq_true, decide_eq_true_eq,
      beq_iff_eq]
  · decide
  · decide
  · decide

/-- C10: rendering a `Version` with `repr` and parsing the result is the
identity: `Version(repr(v)) == v` for every version value. -/
theorem version_parse_repr_roundtrip (v : Version) :
    Version.parse v.reprChars = some v := by
  obtain ⟨M, m, p⟩ := v
  exact version_parse_three M m p

/-- C5: with a release-candidate number `n ≥ 1` the bundle version is the base
version with `"-rc<N>"` appended and the base URL follows the prerelease
pattern; without one the release pattern and the unsuffixed bundle version are
used; the source-tree token keeps the base version and uses the distinct
`"rc<N>"` qualifier, so it never equals the `"-rc<N>"`-suffixed publication
tag.  (The code treats `0` like an absent release candidate — integer
truthiness — so the quantification is over `n ≥ 1`.) -/
theorem release_spec_derivation (args : Args) :
    (∀ n : Nat, args.release_candidate = some n → 1 ≤ n →
      GetLlvmBaseUrl args = LLVM_PRERELEASE_URL args.version n ∧
      GetBundleVersion args = args.version ++ "-rc" ++ Nat.repr n ∧
      GetLlvmVersion args = args.version ++ "rc" ++ Nat.repr n ∧
      GetLlvmVersion args ≠ GetBundleVersion args) ∧
    (args.release_candidate = none →
      GetLlvmBaseUrl args = LLVM_RELEASE_URL args.version ∧
      GetBundleVersion args = args.version ∧
      GetLlvmVersion args = args.version) := by
  constructor
  · intro n hrc hn
    have htr : rcTruthy args = true := by
      simp [rcTruthy, hrc]; omega
    refine ⟨?_, ?_, ?_, ?_⟩
    · simp [GetLlvmBaseUrl, htr, hrc]
    · simp [GetBundleVersion, htr, hrc]
    · simp [GetLlvmVersion, htr, hrc]
    · intro heq
      have hlen := congrArg String.length heq
      simp only [GetLlvmVersion, GetBundleVersion, htr, if_pos, hrc,
        Option.getD_some, String.length_append] at hlen
      have h2 : ("rc" : String).length = 2 := rfl
      have h3 : ("-rc" : String).length = 3 := rfl
      omega
  · intro hrc
    have htr : rcTruthy args = false := by simp [rcTruthy, hrc]
    exact ⟨by simp [GetLlvmBaseUrl, htr], by simp [GetBundleVersion, htr],
      by simp [GetLlvmVersion, htr]⟩

/-- Witness for C5 at version `"10.0.0"`, release candidate `1`. -/
theorem release_spec_derivation_witness :
    GetLlvmBaseUrl ⟨"10.0.0", some 1, true, "/b", "x86_64"⟩ =
        LLVM_PRERELEASE_URL "10.0.0" 1 ∧
      GetBundleVersion ⟨"10.0.0", some 1, true, "/b", "x86_64"⟩ =
        "10.0.0" ++ "-rc" ++ Nat.repr 1 ∧
      GetLlvmVersion ⟨"10.0.0", some 1, true, "/b", "x86_64"⟩ =
        "10.0.0" ++ "rc" ++ Nat.repr 1 ∧
      GetLlvmVersion ⟨"10.0.0", some 1, true, "/b", "x86_64"⟩ ≠
        GetBundleVersion ⟨"10.0.0", some 1, true, "/b", "x86_64"⟩ :=
  (release_spec_derivation ⟨"10.0.0", some 1, true, "/b", "x86_64"⟩).1 1 rfl
    (by decide)

/-- C3: if `function` raises `SystemExit` on every invocation, `Retries`
makes exactly 4 attempts (1 initial + 3 retries) separated by fixed
`RETRY_INTERVAL` sleeps and then aborts; if the first two invocations fail
and the third succeeds, it returns success after 3 attempts; any other
exception propagates immediately after a single attempt. -/
theorem retries_budget_and_propagation :
    (∀ f : Nat → PyOutcome,
      (∀ i, ∃ m, f i = .sysExit m) →
      Retries f =
        ([.attempt 0, .sleep RETRY_INTERVAL, .attempt 1, .sleep RETRY_INTERVAL,
          .attempt 2, .sleep RETRY_INTERVAL, .attempt 3], .aborted)) ∧
    (∀ f : Nat → PyOutcome,
      (∃ m0, f 0 = .sysExit m0) → (∃ m1, f 1 = .sysExit m1) → f 2 = .ok →
      Retries f =
        ([.attempt 0, .sleep RETRY_INTERVAL, .attempt 1, .sleep RETRY_INTERVAL,
          .attempt 2], .success)) ∧
    (∀ (f : Nat → PyOutcome) (m : String),
      f 0 = .otherExc m → Retries f = ([.attempt 0], .raised m)) := by
  refine ⟨?_, ?_, ?_⟩
  · intro f hf
    obtain ⟨m0, h0⟩ := hf 0
    obtain ⟨m1, h1⟩ := hf 1
    obtain ⟨m2, h2⟩ := hf 2
    obtain ⟨m3, h3⟩ := hf 3
    simp [Retries, RetriesGo, h0, h1, h2, h3]
  · intro f h0e h1e h2
    obtain ⟨m0, h0⟩ := h0e
    obtain ⟨m1, h1⟩ := h1e
    simp [Retries, RetriesGo, h0, h1, h2]
  · intro f m h0
    simp [Retries, RetriesGo, h0]

/-- Witness for C3: a function that always raises `SystemExit` is attempted
exactly 4 times with 3 interleaved sleeps, then aborted. -/
theorem retries_budget_witness :
    Retries (fun _ => PyOutcome.sysExit "stage failed") =
      ([.attempt 0, .sleep RETRY_INTERVAL, .attempt 1, .sleep RETRY_INTERVAL,
        .attempt 2, .sleep RETRY_INTERVAL, .attempt 3], .aborted) :=
  retries_budget_and_propagation.1 (fun _ => PyOutcome.sysExit "stage failed")
    (fun _ => ⟨"stage failed", rfl⟩)

/-- C1 counterexample: with the tblgen build directory, the llvm build
directory and the install directory all existing at entry, `Main` still
performs both build stages — their existence checks only guard `os.mkdir`,
so these stages are not skipped, contrary to the claim. -/
theorem stage_skip_counterexample :
    "/b/x86_64-unknown-linux-gnu/tblgen_build" ∈ sampleFsBuilt ∧
    "/b/x86_64-unknown-linux-gnu/llvm_build" ∈ sampleFsBuilt ∧
    "/b/x86_64-unknown-linux-gnu/llvm_install" ∈ sampleFsBuilt ∧
    StageAct.buildTableGen ∈ plannedActs "Linux" sampleArgs sampleFsBuilt ∧
    StageAct.buildLlvm ∈ plannedActs "Linux" sampleArgs sampleFsBuilt := by
  decide

/-- C1 amended: only the source-fetch work (archive download and extraction)
and the bundle-creation stage are gated on their outputs already existing
(and upload on the `--no-upload` flag); the tblgen and llvm build stages run
unconditionally. -/
theorem stage_gating_amended (system : String) (args : Args) (fs : List String)
    (env : EnvEntry)
    (henv : ENV_DATA system args.target_architecture = some env) :
    (joinPath (joinPath args.base_dir env.target)
        (LLVM_SOURCE (GetLlvmVersion args)) ∈ fs →
      StageAct.download ∉ plannedActs system args fs ∧
      StageAct.extract ∉ plannedActs system args fs) ∧
    (joinPath (joinPath args.base_dir env.target)
        (LLVM_SOURCE (GetLlvmVersion args) ++ ".tar.xz") ∈ fs →
      StageAct.download ∉ plannedActs system args fs) ∧
    (joinPath (joinPath args.base_dir env.target)
        (BUNDLE_NAME (GetBundleVersion args) env.archive ++ ".tar.xz") ∈ fs →
      StageAct.bundle ∉ plannedActs system args fs) ∧
    (args.no_upload = true → StageAct.upload ∉ plannedActs system args fs) ∧
    StageAct.buildTableGen ∈ plannedActs system args fs ∧
    StageAct.buildLlvm ∈ plannedActs system args fs := by
  refine ⟨?_, ?_, ?_, ?_, ?_, ?_⟩ <;>
    first
      | (intro h
         simp only [plannedActs, henv, DownloadSourceActs]
         split_ifs <;> simp_all)
      | (simp only [plannedActs, henv, DownloadSourceActs]
         split_ifs <;> simp_all)

/-- Witness for the amended C1: with the source tree and the bundle archive
present (and `--no-upload`), no download, extraction, bundling or upload is
performed, while both build stages still run. -/
theorem stage_gating_amended_witness :
    StageAct.download ∉ plannedActs "Linux" sampleArgs sampleFsDone ∧
    StageAct.extract ∉ plannedActs "Linux" sampleArgs sampleFsDone ∧
    StageAct.bundle ∉ plannedActs "Linux" sampleArgs sampleFsDone ∧
    StageAct.upload ∉ plannedActs "Linux" sampleArgs sampleFsDone ∧
    StageAct.buildTableGen ∈ plannedActs "Linux" sampleArgs sampleFsDone ∧
    StageAct.buildLlvm ∈ plannedActs "Linux" sampleArgs sampleFsDone := by
  have h := stage_gating_amended "Linux" sampleArgs sampleFsDone
    ⟨"x86_64-unknown-linux-gnu", "x86_64-unknown-linux-gnu",
      "x86_64-unknown-linux-gnu"⟩ (by decide)
  exact ⟨(h.1 (by decide)).1, (h.1 (by decide)).2, h.2.2.1 (by decide),
    h.2.2.2.1 (by decide), h.2.2.2.2.1, h.2.2.2.2.2⟩

/-! ### No retry in the pipeline (C2) -/

theorem runActs_count_le (behave : StageAct → PyOutcome) (a : StageAct) :
    ∀ l : List StageAct, ((runActs behave l).1).count a ≤ l.count a := by
  intro l
  induction l with
  | nil => simp [runActs]
  | cons b rest ih =>
      cases hb : behave b with
      | ok =>
          simp only [runActs, hb, List.count_cons]
          split <;> omega
      | sysExit m =>
          simp only [runActs, hb, List.count_cons, List.count_nil]
          split <;> omega
      | otherExc m =>
          simp only [runActs, hb, List.count_cons, List.count_nil]
          split <;> omega

theorem plannedActs_nodup (system : String) (args : Args) (fs : List String) :
    (plannedActs system args fs).Nodup := by
  unfold plannedActs
  cases ENV_DATA system args.target_architecture with
  | none => simp
  | some env =>
      simp only [DownloadSourceActs]
      split_ifs <;> decide

theorem runActs_fail_last (behave : StageAct → PyOutcome) (a : StageAct)
    (h : behave a ≠ .ok) :
    ∀ l : List StageAct, a ∈ (runActs behave l).1 →
      (runActs behave l).2 = false ∧ (runActs behave l).1.getLast? = some a := by
  intro l
  induction l with
  | nil => simp [runActs]
  | cons b rest ih =>
      intro hmem
      cases hb : behave b with
      | ok =>
          simp only [runActs, hb] at hmem ⊢
          rcases List.mem_cons.mp hmem with rfl | hmem'
          · exact absurd hb h
          · obtain ⟨h2, hlast⟩ := ih hmem'
            refine ⟨h2, ?_⟩
            cases hr : (runActs behave rest).1 with
            | nil => rw [hr] at hmem'; simp at hmem'
            | cons c cs =>
                rw [List.getLast?_cons_cons, ← hr]
                exact hlast
      | sysExit m =>
          simp only [runActs, hb] at hmem ⊢
          rcases List.mem_singleton.mp hmem with rfl
          exact ⟨by simp, by simp⟩
      | otherExc m =>
          simp only [runActs, hb] at hmem ⊢
          rcases List.mem_singleton.mp hmem with rfl
          exact ⟨by simp, by simp⟩

/-- C2 counterexample: with a tblgen build stage that always raises the
deliberate abort signal, `Main` attempts that stage exactly once — not the
4 attempts (1 + 3 retries) the claim requires — and the run terminates. -/
theorem pipeline_retry_counterexample :
    (MainRun "Linux" sampleArgs [] sampleTblgenFails).1 =
      [StageAct.download, StageAct.extract, StageAct.buildTableGen] ∧
    (MainRun "Linux" sampleArgs [] sampleTblgenFails).2 = false ∧
    (MainRun "Linux" sampleArgs [] sampleTblgenFails).1.count
        StageAct.buildTableGen = 1 ∧
    ¬ ((MainRun "Linux" sampleArgs [] sampleTblgenFails).1.count
        StageAct.buildTableGen = 4) := by
  decide

/-- C2 amended: `Main` applies no retry policy (`Retries` is never invoked on
any stage): every stage is attempted at most once, and the first stage
failure — deliberate abort signal or not — terminates the run immediately,
with the failing stage as the last invocation of the trace. -/
theorem pipeline_stages_not_retried (system : String) (args : Args)
    (fs : List String) (behave : StageAct → PyOutcome) (a : StageAct) :
    (MainRun system args fs behave).1.count a ≤ 1 ∧
    (behave a ≠ .ok → a ∈ (MainRun system args fs behave).1 →
      (MainRun system args fs behave).2 = false ∧
      (MainRun system args fs behave).1.getLast? = some a) := by
  constructor
  · exact le_trans (runActs_count_le behave a (plannedActs system args fs))
      (List.nodup_iff_count_le_one.mp (plannedActs_nodup system args fs) a)
  · intro h hmem
    exact runActs_fail_last behave a h (plannedActs system args fs) hmem

/-- Witness for the amended C2 on a failing tblgen stage. -/
theorem pipeline_stages_not_retried_witness :
    (MainRun "Linux" sampleArgs [] sampleTblgenFails).1.count
        StageAct.buildTableGen ≤ 1 ∧
    (MainRun "Linux" sampleArgs [] sampleTblgenFails).2 = false ∧
    (MainRun "Linux" sampleArgs [] sampleTblgenFails).1.getLast? =
      some StageAct.buildTableGen := by
  have h := pipeline_stages_not_retried "Linux" sampleArgs [] sampleTblgenFails
    StageAct.buildTableGen
  have h2 := h.2 (by decide) (by decide)
  exact ⟨h.1, h2.1, h2.2⟩

/-- C9: `WorkingDirectory` restores the previous working directory on exit,
whether the block completes normally or raises; the rest of the state and
the block's outcome pass through unchanged, and the block itself runs with
the requested working directory. -/
theorem working_directory_restores_cwd {α : Type} (cwd : String)
    (body : ProcState → ProcState × BlockResult α) (s : ProcState) :
    (WorkingDirectory cwd body s).1.cwd = s.cwd ∧
    (WorkingDirectory cwd body s).1.world =
      (body { s with cwd := cwd }).1.world ∧
    (WorkingDirectory cwd body s).2 = (body { s with cwd := cwd }).2 := by
  exact ⟨rfl, rfl, rfl⟩

/-- C8: every file whose name matches the shared-library pattern gets the
execute bit set for each permission class (user bit 8→6, group bit 5→3,
other bit 2→0) that already has the read bit, and its archive entry carries
the normalized mode; a non-matching file's permissions are unchanged. -/
theorem bundle_exec_bits (bundle_name : List Char) (files : List InstFile)
    (f : InstFile) (hf : f ∈ files) :
    (bundle_name ++ ('/' :: f.relpath), normalizeMode f.filename f.mode) ∈
      BundleLlvm bundle_name files ∧
    (sharedLibMatch f.filename = true →
      ((f.mode.testBit 8 = true →
          (normalizeMode f.filename f.mode).testBit 6 = true) ∧
       (f.mode.testBit 5 = true →
          (normalizeMode f.filename f.mode).testBit 3 = true) ∧
       (f.mode.testBit 2 = true →
          (normalizeMode f.filename f.mode).testBit 0 = true))) ∧
    (sharedLibMatch f.filename = false →
      normalizeMode f.filename f.mode = f.mode) := by
  refine ⟨List.mem_map_of_mem _ hf, ?_, ?_⟩
  · intro hmatch
    have hb : ∀ e : Nat, Nat.testBit 292 (2 + e) = true →
        f.mode.testBit (2 + e) = true →
        (normalizeMode f.filename f.mode).testBit e = true := by
      intro e h292 hread
      simp only [normalizeMode, if_pos hmatch, Nat.testBit_or,
        Nat.testBit_shiftRight, Nat.testBit_and, h292, hread]
      simp
    refine ⟨fun h => hb 6 (by decide) ?_, fun h => hb 3 (by decide) ?_,
      fun h => hb 0 (by decide) ?_⟩ <;> simpa using h
  · intro hmatch
    simp [normalizeMode, hmatch]

/-- Witness for C8: a readable, non-executable `.so` file gains the user
execute bit in its archive entry; a non-matching file keeps its mode. -/
theorem bundle_exec_bits_witness :
    ("bundle".toList ++ ('/' :: sampleLibFile.relpath),
        normalizeMode sampleLibFile.filename sampleLibFile.mode) ∈
      BundleLlvm "bundle".toList sampleInstFiles ∧
    (normalizeMode sampleLibFile.filename sampleLibFile.mode).testBit 6 =
      true ∧
    normalizeMode sampleOtherFile.filename sampleOtherFile.mode =
      sampleOtherFile.mode := by
  have h1 := bundle_exec_bits "bundle".toList sampleInstFiles sampleLibFile
    (by decide)
  have h2 := bundle_exec_bits "bundle".toList sampleInstFiles sampleOtherFile
    (by decide)
  exact ⟨h1.1, (h1.2.1 (by decide)).1 (by decide), h2.2.2 (by decide)⟩

/-! ### Order lemmas for `Version.ltb` -/

theorem Version.ltb_iff (a b : Version) :
    Version.ltb a b = true ↔
      (a.major < b.major ∨ (a.major = b.major ∧
        (a.minor < b.minor ∨ (a.minor = b.minor ∧ a.patch < b.patch)))) := by
  simp [Version.ltb, Bool.or_eq_true, Bool.and_eq_true, decide_eq_true_eq,
    beq_iff_eq]

theorem Version.ltb_irrefl (a : Version) : Version.ltb a a = false := by
  rw [← Bool.not_eq_true, Version.ltb_iff]
  omega

theorem Version.ltb_ge_trans {a b c : Version} (h1 : Version.ltb a b = false)
    (h2 : Version.ltb b c = false) : Version.ltb a c = false := by
  rw [← Bool.not_eq_true, Version.ltb_iff] at h1 h2 ⊢
  omega

theorem Version.ltb_asymm {a b : Version} (h : Version.ltb a b = true) :
    Version.ltb b a = false := by
  rw [Version.ltb_iff] at h
  rw [← Bool.not_eq_true, Version.ltb_iff]
  omega

/-! ### `pyMax` computes a maximum -/

theorem pyMaxGo_mem (l : List Version) :
    ∀ cur, pyMaxGo cur l = cur ∨ pyMaxGo cur l ∈ l := by
  induction l with
  | nil => intro cur; left; rfl
  | cons v rest ih =>
      intro cur
      rcases ih (if Version.ltb cur v then v else cur) with h | h
      · rw [pyMaxGo, h]
        split
        · right; exact List.mem_cons_self _ _
        · left; rfl
      · right
        rw [pyMaxGo]
        exact List.mem_cons_of_mem _ h

theorem pyMaxGo_ge (l : List Version) :
    ∀ cur x, (x = cur ∨ x ∈ l) → Version.ltb (pyMaxGo cur l) x = false := by
  induction l with
  | nil =>
      intro cur x hx
      rcases hx with rfl | hx
      · exact Version.ltb_irrefl x
      · simp at hx
  | cons v rest ih =>
      intro cur x hx
      have hstep_cur : Version.ltb (if Version.ltb cur v then v else cur) cur
          = false := by
        split
        · next hlt => exact Version.ltb_asymm hlt
        · exact Version.ltb_irrefl cur
      have hstep_v : Version.ltb (if Version.ltb cur v then v else cur) v
          = false := by
        split
        · exact Version.ltb_irrefl v
        · next hlt => simpa using hlt
      have hge_cur' : ∀ y, (y = (if Version.ltb cur v then v else cur) ∨
          y ∈ rest) → Version.ltb (pyMaxGo cur (v :: rest)) y = false := by
        rw [pyMaxGo]
        exact ih _
      have hres_cur' : Version.ltb (pyMaxGo cur (v :: rest))
          (if Version.ltb cur v then v else cur) = false :=
        hge_cur' _ (Or.inl rfl)
      rcases hx with rfl | hx
      · exact Version.ltb_ge_trans hres_cur' hstep_cur
      · rcases List.mem_cons.mp hx with rfl | hx'
        · exact Version.ltb_ge_trans hres_cur' hstep_v
        · exact hge_cur' x (Or.inr hx')

theorem pyMax_spec {l : List Version} {m : Version} (h : pyMax l = some m) :
    m ∈ l ∧ ∀ v ∈ l, Version.ltb m v = false := by
  cases l with
  | nil => simp [pyMax] at h
  | cons v rest =>
      have hm : m = pyMaxGo v rest := by
        simpa [pyMax] using h.symm
      subst hm
      constructor
      · rcases pyMaxGo_mem rest v with h1 | h1
        · rw [h1]; exact List.mem_cons_self _ _
        · exact List.mem_cons_of_mem _ h1
      · intro x hx
        rcases List.mem_cons.mp hx with h2 | h2
        · subst h2; exact pyMaxGo_ge rest x x (Or.inl rfl)
        · exact pyMaxGo_ge rest v x (Or.inr h2)

/-! ### Invariants of the `versions` map -/

theorem lookupVersions_addVersion (lib lib' : List Char) (v : Version) :
    ∀ m : VersionsMap,
      lookupVersions lib (addVersion lib' v m) =
        if lib' = lib then lookupVersions lib m ++ [v]
        else lookupVersions lib m := by
  intro m
  induction m with
  | nil =>
      by_cases h : lib' = lib
      · subst h; simp [addVersion, lookupVersions]
      · simp [addVersion, lookupVersions, h]
  | cons p rest ih =>
      obtain ⟨l, vs⟩ := p
      simp only [addVersion]
      by_cases hl : l = lib'
      · rw [if_pos hl]
        subst hl
        by_cases h2 : l = lib
        · rw [if_pos h2]
          simp [lookupVersions, h2]
        · rw [if_neg h2]
          simp [lookupVersions, h2]
      · rw [if_neg hl]
        by_cases h2 : l = lib
        · have hne : lib' ≠ lib := fun hh => hl (by rw [h2, hh])
          simp [lookupVersions, h2, hne]
        · simp [lookupVersions, h2, ih]

theorem addVersion_keys (lib : List Char) (v : Version) :
    ∀ m : VersionsMap,
      (addVersion lib v m).map Prod.fst =
        if lib ∈ m.map Prod.fst then m.map Prod.fst
        else m.map Prod.fst ++ [lib] := by
  intro m
  induction m with
  | nil => simp [addVersion]
  | cons p rest ih =>
      obtain ⟨l, vs⟩ := p
      by_cases hl : l = lib
      · subst hl
        simp [addVersion]
      · by_cases hmem : lib ∈ rest.map Prod.fst
        · simp [addVersion, hl, ih, hmem, Ne.symm hl]
        · simp [addVersion, hl, ih, hmem, Ne.symm hl]

theorem addVersion_keys_nodup {lib : List Char} {v : Version}
    {m : VersionsMap} (h : (m.map Prod.fst).Nodup) :
    ((addVersion lib v m).map Prod.fst).Nodup := by
  rw [addVersion_keys]
  split
  · exact h
  · next hmem => simp [List.nodup_append, h, hmem]

theorem lookupVersions_of_mem :
    ∀ {m : VersionsMap}, (m.map Prod.fst).Nodup →
      ∀ {l : List Char} {vals : List Version}, (l, vals) ∈ m →
        lookupVersions l m = vals := by
  intro m
  induction m with
  | nil => intro _ l vals hmem; simp at hmem
  | cons p rest ih =>
      intro hnd l vals hmem
      obtain ⟨l0, vs0⟩ := p
      rcases List.mem_cons.mp hmem with heq | hmem'
      · injection heq with h1 h2
        subst h1; subst h2
        simp [lookupVersions]
      · have hl0 : l0 ≠ l := by
          intro hh
          subst hh
          have hmemk : l0 ∈ rest.map Prod.fst :=
            List.mem_map_of_mem Prod.fst hmem'
          rw [List.map_cons, List.nodup_cons] at hnd
          exact hnd.1 hmemk
        have hrest : (rest.map Prod.fst).Nodup := by
          rw [List.map_cons, List.nodup_cons] at hnd
          exact hnd.2
        simp [lookupVersions, hl0, ih hrest hmem']

/-! ### Invariants of the `CheckDependencies` loop -/

theorem checkDepsGo_versions (lib : List Char) :
    ∀ (lines deps : List (List Char)) (vs : VersionsMap)
      (deps' : List (List Char)) (vs' : VersionsMap),
      CheckDependenciesGo lines deps vs = some (deps', vs') →
      lookupVersions lib vs' =
        lookupVersions lib vs ++ lineVersionsFor lib lines := by
  intro lines
  induction lines with
  | nil =>
      intro deps vs deps' vs' h
      simp only [CheckDependenciesGo, Option.some.injEq, Prod.mk.injEq] at h
      obtain ⟨h1, h2⟩ := h
      subst h2
      simp [lineVersionsFor]
  | cons line rest ih =>
      intro deps vs deps' vs' h
      simp only [CheckDependenciesGo] at h
      cases hv : OBJDUMP_VERSION_match line with
      | none =>
          rw [hv] at h
          rw [ih _ _ _ _ h]
          simp [lineVersionsFor, List.filterMap_cons, hv]
      | some p =>
          obtain ⟨l, s⟩ := p
          rw [hv] at h
          dsimp only at h
          cases hp : Version.parse s with
          | none => rw [hp] at h; simp at h
          | some v =>
              rw [hp] at h
              rw [ih _ _ _ _ h, lookupVersions_addVersion]
              simp only [lineVersionsFor, List.filterMap_cons, hv, hp]
              by_cases hl : l = lib
              · simp only [if_pos hl, lineVersionsFor, List.append_assoc,
                  List.singleton_append]
              · simp only [if_neg hl, lineVersionsFor]

theorem checkDepsGo_deps :
    ∀ (lines deps : List (List Char)) (vs : VersionsMap)
      (deps' : List (List Char)) (vs' : VersionsMap),
      CheckDependenciesGo lines deps vs = some (deps', vs') →
      (∀ d ∈ deps, d ∈ deps') ∧
      (∀ line ∈ lines, ∀ d, OBJDUMP_NEEDED_match line = some d →
        d ∈ deps') := by
  intro lines
  induction lines with
  | nil =>
      intro deps vs deps' vs' h
      simp only [CheckDependenciesGo, Option.some.injEq, Prod.mk.injEq] at h
      obtain ⟨h1, _⟩ := h
      subst h1
      exact ⟨fun d hd => hd, by simp⟩
  | cons line rest ih =>
      intro deps vs deps' vs' h
      simp only [CheckDependenciesGo] at h
      have hmain :
          ∀ (vs0 : VersionsMap),
            CheckDependenciesGo rest
              (match OBJDUMP_NEEDED_match line with
               | some d => deps ++ [d]
               | none => deps) vs0 = some (deps', vs') →
            (∀ d ∈ deps, d ∈ deps') ∧
            (∀ l2 ∈ line :: rest, ∀ d, OBJDUMP_NEEDED_match l2 = some d →
              d ∈ deps') := by
        intro vs0 hgo
        have ihh := ih _ _ _ _ hgo
        constructor
        · intro d hd
          apply ihh.1
          cases hn : OBJDUMP_NEEDED_match line <;> simp [hn, hd]
        · intro l2 hl2 d hd
          rcases List.mem_cons.mp hl2 with rfl | hl2'
          · apply ihh.1
            rw [hd]
            simp
          · exact ihh.2 l2 hl2' d hd
      cases hv : OBJDUMP_VERSION_match line with
      | none =>
          rw [hv] at h
          exact hmain _ h
      | some p =>
          obtain ⟨l, s⟩ := p
          rw [hv] at h
          dsimp only at h
          cases hp : Version.parse s with
          | none => rw [hp] at h; simp at h
          | some v =>
              rw [hp] at h
              exact hmain _ h

theorem checkDepsGo_keys_nodup :
    ∀ (lines deps : List (List Char)) (vs : VersionsMap)
      (deps' : List (List Char)) (vs' : VersionsMap),
      CheckDependenciesGo lines deps vs = some (deps', vs') →
      (vs.map Prod.fst).Nodup → (vs'.map Prod.fst).Nodup := by
  intro lines
  induction lines with
  | nil =>
      intro deps vs deps' vs' h hnd
      simp only [CheckDependenciesGo, Option.some.injEq, Prod.mk.injEq] at h
      obtain ⟨_, h2⟩ := h
      subst h2
      exact hnd
  | cons line rest ih =>
      intro deps vs deps' vs' h hnd
      simp only [CheckDependenciesGo] at h
      cases hv : OBJDUMP_VERSION_match line with
      | none =>
          rw [hv] at h
          exact ih _ _ _ _ h hnd
      | some p =>
          obtain ⟨l, s⟩ := p
          rw [hv] at h
          dsimp only at h
          cases hp : Version.parse s with
          | none => rw [hp] at h; simp at h
          | some v =>
              rw [hp] at h
              exact ih _ _ _ _ h (addVersion_keys_nodup hnd)

theorem reportOf_mem :
    ∀ (m : VersionsMap) (r : List (List Char × Version)),
      reportOf m = some r →
      ∀ p ∈ r, ∃ vals, (p.1, vals) ∈ m ∧ pyMax vals = some p.2 := by
  intro m
  induction m with
  | nil =>
      intro r h p hp
      simp only [reportOf, Option.some.injEq] at h
      subst h
      simp at hp
  | cons q rest ih =>
      intro r h p hp
      obtain ⟨l, vals⟩ := q
      simp only [reportOf] at h
      cases hm : pyMax vals with
      | none => rw [hm] at h; simp at h
      | some mx =>
          rw [hm] at h
          cases hr : reportOf rest with
          | none => rw [hr] at h; simp at h
          | some r0 =>
              rw [hr] at h
              simp only [Option.some.injEq] at h
              subst h
              rcases List.mem_cons.mp hp with rfl | hp'
              · exact ⟨vals, List.mem_cons_self _ _, hm⟩
              · obtain ⟨vals', hmem, hmax⟩ := ih r0 hr p hp'
                exact ⟨vals', List.mem_cons_of_mem _ hmem, hmax⟩

/-- C7: whenever `CheckLlvm` produces a report, every reported pair maps a
library to the maximum, under `Version`'s numeric order, of all versions the
versioned-symbol regex attributes to that library across both inspected
binaries; and every `NEEDED` line of an inspected output contributes its
captured dependency name to the dependency list `CheckDependencies`
returns. -/
theorem check_llvm_reports_max (out1 out2 : List (List Char))
    (report : List (List Char × Version))
    (hrep : CheckLlvm out1 out2 = some report) :
    (∀ lib m, (lib, m) ∈ report →
      m ∈ lineVersionsFor lib out1 ++ lineVersionsFor lib out2 ∧
      ∀ v ∈ lineVersionsFor lib out1 ++ lineVersionsFor lib out2,
        Version.ltb m v = false) ∧
    (∀ (output : List (List Char)) (vs : VersionsMap) deps vs2,
      CheckDependencies output vs = some (deps, vs2) →
      ∀ line ∈ output, ∀ d, OBJDUMP_NEEDED_match line = some d →
        d ∈ deps) := by
  constructor
  · intro lib m hm
    unfold CheckLlvm at hrep
    cases h1 : CheckDependencies out1 [] with
    | none => rw [h1] at hrep; simp at hrep
    | some p1 =>
        obtain ⟨deps1, vs1⟩ := p1
        rw [h1] at hrep
        dsimp only at hrep
        cases h2 : CheckDependencies out2 vs1 with
        | none => rw [h2] at hrep; simp at hrep
        | some p2 =>
            obtain ⟨deps2, vs2⟩ := p2
            rw [h2] at hrep
            dsimp only at hrep
            have hnd1 : (vs1.map Prod.fst).Nodup :=
              checkDepsGo_keys_nodup out1 [] [] deps1 vs1 h1 (by simp)
            have hnd2 : (vs2.map Prod.fst).Nodup :=
              checkDepsGo_keys_nodup out2 [] vs1 deps2 vs2 h2 hnd1
            have hlook1 : lookupVersions lib vs1 = lineVersionsFor lib out1 := by
              have hv1 := checkDepsGo_versions lib out1 [] [] deps1 vs1 h1
              simpa [lookupVersions] using hv1
            have hlook2 : lookupVersions lib vs2 =
                lineVersionsFor lib out1 ++ lineVersionsFor lib out2 := by
              have hv2 := checkDepsGo_versions lib out2 [] vs1 deps2 vs2 h2
              rw [hv2, hlook1]
            obtain ⟨vals, hvmem, hvmax⟩ :=
              reportOf_mem vs2 report hrep (lib, m) hm
            have hvals : vals =
                lineVersionsFor lib out1 ++ lineVersionsFor lib out2 := by
              rw [← hlook2]
              exact (lookupVersions_of_mem hnd2 hvmem).symm
            obtain ⟨hmem2, hub⟩ := pyMax_spec hvmax
            rw [hvals] at hmem2 hub
            exact ⟨hmem2, hub⟩
  · intro output vs deps vs2 hcd line hline d hd
    exact (checkDepsGo_deps output [] vs deps vs2 hcd).2 line hline d hd

/-- Witness for C7 on the sample outputs: three `GLIBC` symbol versions
2.2.5, 2.3 and 2.17 across the two binaries; the report maps `GLIBC` to
2.17.0 (numeric maximum), and the first `NEEDED` dependency appears in the
returned dependency list. -/
theorem check_llvm_reports_max_witness :
    (⟨2, 17, 0⟩ : Version) ∈
      lineVersionsFor "GLIBC".toList sampleLibclangOut ++
        lineVersionsFor "GLIBC".toList sampleClangdOut ∧
    (∀ v ∈ lineVersionsFor "GLIBC".toList sampleLibclangOut ++
        lineVersionsFor "GLIBC".toList sampleClangdOut,
      Version.ltb ⟨2, 17, 0⟩ v = false) ∧
    "libc.so.6".toList ∈ ["libc.so.6".toList] := by
  have h := check_llvm_reports_max sampleLibclangOut sampleClangdOut
    [("GLIBC".toList, ⟨2, 17, 0⟩)] (by decide)
  have h1 := h.1 "GLIBC".toList ⟨2, 17, 0⟩ (by decide)
  refine ⟨h1.1, h1.2, ?_⟩
  exact h.2 sampleLibclangOut []
    ["libc.so.6".toList] [("GLIBC".toList, [⟨2, 2, 5⟩, ⟨2, 3, 0⟩])]
    (by decide) "  NEEDED               libc.so.6".toList (by decide) "libc.so.6".toList (by decide)

theorem deleteMatchingAsset_spec (bundle_name : String) (api : GhApi)
    (hdel : api.deleteStatus = 204) :
    ∀ assets : List Asset,
      ∃ ds : List ApiCall,
        deleteMatchingAsset bundle_name api assets = (ds, .ok ()) ∧
        (∀ c ∈ ds, ∃ i, c = ApiCall.deleteAsset i) ∧
        ((∃ a ∈ assets, a.name = bundle_name) → ds ≠ []) := by
  intro assets
  induction assets with
  | nil =>
      refine ⟨[], rfl, by simp, ?_⟩
      intro h
      simp at h
  | cons a rest ih =>
      by_cases ha : a.name = bundle_name
      · refine ⟨[.deleteAsset a.asset_id], ?_, ?_, by simp⟩
        · simp [deleteMatchingAsset, ha, hdel]
        · intro c hc
          rcases List.mem_singleton.mp hc with rfl
          exact ⟨a.asset_id, rfl⟩
      · obtain ⟨ds, heq, hall, hne⟩ := ih
        refine ⟨ds, ?_, hall, ?_⟩
        · simp [deleteMatchingAsset, ha, heq]
        · intro h
          apply hne
          rcases h with ⟨x, hx, hxn⟩
          rcases List.mem_cons.mp hx with rfl | hx'
          · exact absurd hxn ha
          · exact ⟨x, hx', hxn⟩

theorem scanReleases_spec (bundle_version bundle_name : String) (api : GhApi)
    (hdel : api.deleteStatus = 204) :
    ∀ (rs : List Release) (u : Option String),
      (∀ r ∈ rs, r.tag_name = bundle_version → r.upload_url ≠ "") →
      (strTruthy u = true ∨ ∃ r ∈ rs, r.tag_name = bundle_version) →
      ∃ (ds : List ApiCall) (u' : Option String),
        scanReleases bundle_version bundle_name api rs u = (ds, .ok u') ∧
        (∀ c ∈ ds, ∃ i, c = ApiCall.deleteAsset i) ∧
        strTruthy u' = true ∧
        ((∃ r ∈ rs, r.tag_name = bundle_version ∧
            ∃ a ∈ r.assets, a.name = bundle_name) → ds ≠ []) := by
  intro rs
  induction rs with
  | nil =>
      intro u hurl hstart
      refine ⟨[], u, rfl, by simp, ?_, by simp⟩
      rcases hstart with h | h
      · exact h
      · simp at h
  | cons r rest ih =>
      intro u hurl hstart
      by_cases htag : r.tag_name = bundle_version
      · obtain ⟨ds0, hd0, hall0, hne0⟩ :=
          deleteMatchingAsset_spec bundle_name api hdel r.assets
        have hu' : strTruthy (some r.upload_url) = true := by
          have := hurl r (List.mem_cons_self r rest) htag
          simpa [strTruthy] using this
        obtain ⟨ds, u', hscan, hall, htr, hne⟩ :=
          ih (some r.upload_url)
            (fun x hx hxt => hurl x (List.mem_cons_of_mem r hx) hxt)
            (Or.inl hu')
        refine ⟨ds0 ++ ds, u', ?_, ?_, htr, ?_⟩
        · simp only [scanReleases, hd0, hscan]
          simp [htag]
        · intro c hc
          rcases List.mem_append.mp hc with hc' | hc'
          · exact hall0 c hc'
          · exact hall c hc'
        · rintro ⟨x, hx, hxt, hxa⟩
          rcases List.mem_cons.mp hx with rfl | hx'
          · intro habs
            rcases List.append_eq_nil.mp habs with ⟨h1, _⟩
            exact hne0 hxa h1
          · intro habs
            rcases List.append_eq_nil.mp habs with ⟨_, h2⟩
            exact hne ⟨x, hx', hxt, hxa⟩ h2
      · have hstart' : strTruthy u = true ∨
            ∃ x ∈ rest, x.tag_name = bundle_version := by
          rcases hstart with h | ⟨x, hx, hxt⟩
          · exact Or.inl h
          · rcases List.mem_cons.mp hx with rfl | hx'
            · exact absurd hxt htag
            · exact Or.inr ⟨x, hx', hxt⟩
        obtain ⟨ds, u', hscan, hall, htr, hne⟩ :=
          ih u (fun x hx hxt => hurl x (List.mem_cons_of_mem r hx) hxt) hstart'
        refine ⟨ds, u', ?_, hall, htr, ?_⟩
        · simp only [scanReleases, if_pos htag, hscan]
        · rintro ⟨x, hx, hxt, hxa⟩
          rcases List.mem_cons.mp hx with rfl | hx'
          · exact absurd hxt htag
          · exact hne ⟨x, hx', hxt, hxa⟩

/-- C6: when the listing succeeds, some listed release carries the target
tag with an asset named like the bundle, every release with the target tag
has a non-empty upload URL (as the hosting API guarantees), and the delete
and upload endpoints answer their success statuses, the publisher issues
exactly the call sequence list-releases, then (non-empty) asset deletions,
then upload-asset — and the create-release call is never made. -/
theorem upload_existing_asset_calls (bundle_version bundle_name : String)
    (api : GhApi)
    (hlist : api.listStatus = 200)
    (hdel : api.deleteStatus = 204)
    (hupl : api.uploadStatus = 201)
    (hmatch : ∃ r ∈ api.releases, r.tag_name = bundle_version ∧
      ∃ a ∈ r.assets, a.name = bundle_name)
    (hurl : ∀ r ∈ api.releases, r.tag_name = bundle_version →
      r.upload_url ≠ "") :
    ∃ ds : List ApiCall, ds ≠ [] ∧
      (∀ c ∈ ds, ∃ i, c = ApiCall.deleteAsset i) ∧
      (UploadLlvm bundle_version bundle_name api).1 =
        ApiCall.listReleases :: (ds ++ [ApiCall.uploadAsset]) ∧
      ApiCall.createRelease ∉ (UploadLlvm bundle_version bundle_name api).1 ∧
      (UploadLlvm bundle_version bundle_name api).2 = .ok () := by
  obtain ⟨ds, u', hscan, hall, htr, hne⟩ :=
    scanReleases_spec bundle_version bundle_name api hdel api.releases none
      hurl (Or.inr (by rcases hmatch with ⟨r, hr, hrt, _⟩; exact ⟨r, hr, hrt⟩))
  have hds : ds ≠ [] := by
    rcases hmatch with ⟨r, hr, hrt, ha⟩
    exact hne ⟨r, hr, hrt, ha⟩
  have htrace : (UploadLlvm bundle_version bundle_name api).1 =
      ApiCall.listReleases :: (ds ++ [ApiCall.uploadAsset]) := by
    simp [UploadLlvm, hlist, hscan, htr]
  refine ⟨ds, hds, hall, htrace, ?_, ?_⟩
  · rw [htrace]
    intro hcm
    rcases List.mem_cons.mp hcm with h | h
    · simp at h
    · rcases List.mem_append.mp h with h' | h'
      · obtain ⟨i, hi⟩ := hall _ h'
        simp at hi
      · simp at h'
  · simp [UploadLlvm, hlist, hscan, htr, hupl]

/-- Witness for C6 on `sampleApi`: the emitted calls are exactly
list-releases, one delete, upload-asset. -/
theorem upload_existing_asset_calls_witness :
    (UploadLlvm "10.0.0" "clang+llvm-10.0.0-x86_64-unknown-linux-gnu.tar.xz"
        sampleApi).1 =
      [ApiCall.listReleases, ApiCall.deleteAsset 7, ApiCall.uploadAsset] ∧
    (∃ ds : List ApiCall, ds ≠ [] ∧
      (∀ c ∈ ds, ∃ i, c = ApiCall.deleteAsset i) ∧
      (UploadLlvm "10.0.0"
          "clang+llvm-10.0.0-x86_64-unknown-linux-gnu.tar.xz" sampleApi).1 =
        ApiCall.listReleases :: (ds ++ [ApiCall.uploadAsset]) ∧
      ApiCall.createRelease ∉
        (UploadLlvm "10.0.0"
          "clang+llvm-10.0.0-x86_64-unknown-linux-gnu.tar.xz" sampleApi).1 ∧
      (UploadLlvm "10.0.0"
          "clang+llvm-10.0.0-x86_64-unknown-linux-gnu.tar.xz"
          sampleApi).2 = .ok ()) := by
  constructor
  · decide
  · exact upload_existing_asset_calls "10.0.0"
      "clang+llvm-10.0.0-x86_64-unknown-linux-gnu.tar.xz" sampleApi rfl rfl rfl
      (by decide) (by decide)
